import Mathlib

/-!
Shallow embedding of the deploynaut policy evaluator and review handlers.

Sources:
- `src/policy/types.ts` (data model)
- `src/policy/evaluator.ts` (PolicyEvaluator)
- handler `handlePullRequestReviewSubmitted` (workflow-run TOCTOU filter)

External effects are modelled explicitly:
- the two injected membership lookups (`listOrganizationMembers`,
  `listTeamMembers`) are fields of an `Env` record returning `Except`,
  since the source catches their failures;
- host regular-expression compilation/matching (the `new RegExp` branch of
  `parsePattern`) is an oracle in `Env`: `regexCheck body flags` returns
  `some errorMessage` when the host would throw on construction, `none`
  when construction succeeds, and `regexTest body flags input` is the
  host's `test`;
- thrown configuration errors (unknown rule name, invalid pattern) are
  `Except.error`.
Timestamps are milliseconds since the Unix epoch as `Nat` (the ISO-8601
values involved are all after 1970).
-/

namespace Deploynaut

/-- GitHub account reference: `{id, login}`. -/
structure UserRef where
  id : Nat
  login : String
deriving Repr, DecidableEq

/-- GitHub signature verification data on a commit. -/
structure Verification where
  verified : Bool
  reason : String
deriving Repr, DecidableEq

/-- Model of `Commit` from `types.ts`: author, committer and verification are optional. -/
structure Commit where
  author : Option UserRef := none
  committer : Option UserRef := none
  verification : Option Verification := none
  sha : String
deriving Repr, DecidableEq

/-- Model of `Review` from `types.ts`. `submitted_at` is unused by the evaluator. -/
structure Review where
  id : Nat
  user : UserRef
  state : String
  body : Option String := none
  commit_id : String
  html_url : Option String := none
  submitted_at : Option String := none
deriving Repr, DecidableEq

/-- The `{users, organizations, teams}` membership set of a condition. -/
structure MembershipSet where
  users : Option (List String) := none
  organizations : Option (List String) := none
  teams : Option (List String) := none
deriving Repr, DecidableEq

/-- The `environment: {matches, not_matches}` condition; the source field
`matches` is a Lean keyword, so it is called `matchesList` here. -/
structure EnvironmentCondition where
  matchesList : Option (List String) := none
  not_matches : Option (List String) := none
deriving Repr, DecidableEq

/-- Model of `RuleCondition` from `types.ts`, extended with the two fields the
evaluator reads at runtime (`has_valid_signatures`, `only_has_authors_in`).
`ref_patterns` is declared here exactly as in `types.ts`. -/
structure RuleCondition where
  ref_patterns : Option (List String) := none
  environment : Option EnvironmentCondition := none
  has_valid_signatures : Option Bool := none
  has_valid_signatures_by : Option MembershipSet := none
  only_has_authors_in : Option MembershipSet := none
  only_has_contributors_in : Option MembershipSet := none
deriving Repr, DecidableEq

/-- Model of `ApprovalRequirement` from `types.ts`. -/
structure ApprovalRequirement where
  count : Nat
  teams : Option (List String) := none
  users : Option (List String) := none
  organizations : Option (List String) := none
deriving Repr, DecidableEq

/-- Model of `ApprovalMethods` from `types.ts`. -/
structure ApprovalMethods where
  github_review : Option Bool := none
  github_review_comment_patterns : Option (List String) := none
deriving Repr, DecidableEq

/-- Model of `NamedApprovalRule` from `types.ts`; the source field `if` is a Lean
keyword, so it is called `ifCond` here. -/
structure NamedApprovalRule where
  name : String
  ifCond : Option RuleCondition := none
  requires : Option ApprovalRequirement := none
  methods : Option ApprovalMethods := none
deriving Repr, DecidableEq

/-- An approval-rule tree as `evaluateRule` dispatches on it: a string
reference, an `{and: [...]}` object, an `{or: [...]}` object, a bare array
(treated as `or`), or any other shape (`unknownRule`, evaluated to `false`).
The source checks `and` before `Array.isArray` before `or`. -/
inductive ApprovalRule where
  | ref (name : String)
  | andRule (rules : List ApprovalRule)
  | orRule (rules : List ApprovalRule)
  | arrRule (rules : List ApprovalRule)
  | unknownRule
deriving Repr

/-- The `policy:` block of the configuration; `approval` may be missing at
runtime (the evaluator guards `!approvalRules`). -/
structure PolicyBlock where
  approval : Option (List ApprovalRule)
deriving Repr

/-- Model of `PolicyConfig` from `types.ts`. -/
structure PolicyConfig where
  policy : PolicyBlock
  approval_rules : List NamedApprovalRule
deriving Repr

/-- Model of `deployment` part of the evaluation context. -/
structure DeploymentInfo where
  ref : Option String := none
  environment : Option String := none
  event : Option String := none
  commit : Commit
deriving Repr, DecidableEq

/-- Model of `environment` part of the evaluation context. -/
structure EnvironmentInfo where
  name : String
deriving Repr, DecidableEq

/-- Model of `PolicyContext` from `types.ts`. -/
structure PolicyContext where
  environment : Option EnvironmentInfo := none
  deployment : Option DeploymentInfo := none
  commits : List Commit
  reviews : List Review
deriving Repr, DecidableEq

/-- External capabilities of the evaluator: the two injected membership
lookups (fallible, as the source catches their rejections) and the host
regular-expression engine used by the explicit `/regex/flags` branch of
`parsePattern`. -/
structure Env where
  orgMembers : String → Except String (List String)
  teamMembers : String → String → Except String (List String)
  regexCheck : String → String → Option String
  regexTest : String → String → String → Bool

/-- Model of `isUserInOrganization`: a lookup failure is caught and treated as
"not a member". -/
def isUserInOrganization (E : Env) (user organization : String) : Bool :=
  match E.orgMembers organization with
  | .ok members => members.any (fun m => m == user)
  | .error _ => false

/-- Model of `isUserInTeam`: the team string is split on `/` into org and slug; a
lookup failure is caught and treated as "not a member". -/
def isUserInTeam (E : Env) (user team : String) : Bool :=
  let parts := team.splitOn "/"
  match E.teamMembers (parts.getD 0 "") (parts.getD 1 "") with
  | .ok members => members.any (fun m => m == user)
  | .error _ => false

/-- Model of `isUserInAny`: direct user list first, then each organization, then
each team, short-circuiting on the first match. -/
def isUserInAny (E : Env) (user : String) (users organizations teams : List String) : Bool :=
  users.contains user
    || organizations.any (fun o => isUserInOrganization E user o)
    || teams.any (fun t => isUserInTeam E user t)

/-- The flag characters the source accepts after the closing slash of an
explicit regular-expression pattern (`[gimuy]`). -/
def isRegexFlagChar (c : Char) : Bool :=
  c == 'g' || c == 'i' || c == 'm' || c == 'u' || c == 'y'

/-- Result of `parsePattern` before matching: either the explicit
`/body/flags` shape (compiled by the host engine with those flags), or the
fallback where the whole pattern string is escaped character by character
and compiled with flag `i`. -/
inductive ParsedPattern where
  | regexShape (body : String) (flags : String)
  | literalShape (lit : String)
deriving Repr, DecidableEq

/-- Branch selection of `parsePattern`: the pattern is an explicit regular
expression when it starts with `/`, contains a second `/` whose suffix is
all flag characters (the source tests `/\/[gimuy]*$/`), and the anchored
extraction `/^\/(.+)\/([gimuy]*)$/` succeeds with a non-empty body. Since
`/` is not a flag character, the dividing slash found by the greedy `(.+)`
is exactly the last slash of the string, which this function locates by
reversing the remaining characters. Every other pattern is escaped and
treated as a literal. -/
def parseReviewPattern (p : String) : ParsedPattern :=
  match p.toList with
  | '/' :: rest =>
    let revRest := rest.reverse
    let flagsRev := revRest.takeWhile (fun c => c != '/')
    if flagsRev.all isRegexFlagChar then
      match revRest.drop flagsRev.length with
      | '/' :: bodyRev =>
        if bodyRev.isEmpty then .literalShape p
        else .regexShape (String.mk bodyRev.reverse) (String.mk flagsRev.reverse)
      | _ => .literalShape p
    else .literalShape p
  | _ => .literalShape p

/-- Is `needle` an initial segment of `hay`? -/
def startsWithChars : List Char → List Char → Bool
  | [], _ => true
  | _ :: _, [] => false
  | a :: as, b :: bs => a == b && startsWithChars as bs

/-- Is `needle` a contiguous segment of `hay`? -/
def occursWithin (needle : List Char) : List Char → Bool
  | [] => needle.isEmpty
  | c :: t => startsWithChars needle (c :: t) || occursWithin needle t

/-- Semantics of the escaped-literal branch of `parsePattern`: every
character of the pattern is escaped, the expression is unanchored and
carries flag `i`, so `test` holds exactly when the pattern occurs in the
input as a contiguous substring, compared case-insensitively. -/
def ciContains (hay lit : String) : Bool :=
  occursWithin (lit.toList.map Char.toLower) (hay.toList.map Char.toLower)

/-- One pattern applied to a review body inside
`methods.github_review_comment_patterns.some(...)`: the explicit
regular-expression shape is compiled by the host engine (construction
failure is rethrown as `Pattern "..." is not valid`), the literal shape
never fails. -/
def testCommentPattern (E : Env) (p : String) (body : String) : Except String Bool :=
  match parseReviewPattern p with
  | .regexShape rbody flags =>
    match E.regexCheck rbody flags with
    | some err => .error (s!"Pattern \"{p}\" is not valid: {err}")
    | none => .ok (E.regexTest rbody flags body)
  | .literalShape lit => .ok (ciContains body lit)

/-- Model of `Array.prototype.some` over the pattern list: sequential, stops at the
first match, and a thrown pattern error aborts immediately. -/
def anyPatternMatches (E : Env) : List String → String → Except String Bool
  | [], _ => .ok false
  | p :: ps, body =>
    match testCommentPattern E p body with
    | .error e => .error e
    | .ok true => .ok true
    | .ok false => anyPatternMatches E ps body

/-- Model of `toLowerCase`, character by character (the host lowercases the review
state before comparing it with `approved` / `commented`). -/
def lowerString (s : String) : String :=
  String.mk (s.toList.map Char.toLower)

/-- The self-approval test of `evaluateRequirements`: the review author id
equals the author id or the committer id of some commit of the context. -/
def isSelfReview (commits : List Commit) (r : Review) : Bool :=
  commits.any (fun c =>
    (match c.author with | some a => a.id == r.user.id | none => false)
      || (match c.committer with | some k => k.id == r.user.id | none => false))

/-- JavaScript truthiness of an optional string (`undefined` and the empty
string are falsy). -/
def truthyString : Option String → Bool
  | some s => !s.isEmpty
  | none => false

/-- The review filter callback of `evaluateRequirements`, in source order:
reject when a deployment sha is set and differs from `review.commit_id`;
reject self-approvals; accept an `approved` review when
`methods.github_review` is set; accept a `commented` review with a truthy
body matching some comment pattern; otherwise reject. -/
def reviewIsValid (E : Env) (methods : Option ApprovalMethods)
    (commits : List Commit) (deploymentSha : Option String) (r : Review) :
    Except String Bool :=
  if truthyString deploymentSha && r.commit_id != deploymentSha.getD "" then .ok false
  else if isSelfReview commits r then .ok false
  else if (match methods with | some m => m.github_review.getD false | none => false)
      && lowerString r.state == "approved" then .ok true
  else
    match methods with
    | some m =>
      match m.github_review_comment_patterns with
      | some pats =>
        if truthyString r.body && lowerString r.state == "commented" then
          anyPatternMatches E pats (r.body.getD "")
        else .ok false
      | none => .ok false
    | none => .ok false

/-- Model of `reviews.filter(...)` with the possibly-throwing callback above: the
callback runs left to right and its first thrown error aborts the filter. -/
def filterValidReviews (E : Env) (methods : Option ApprovalMethods)
    (commits : List Commit) (deploymentSha : Option String) :
    List Review → Except String (List Review)
  | [] => .ok []
  | r :: rs =>
    match reviewIsValid E methods commits deploymentSha r with
    | .error e => .error e
    | .ok b =>
      match filterValidReviews E methods commits deploymentSha rs with
      | .error e => .error e
      | .ok rest => .ok (if b then r :: rest else rest)

/-- Model of `evaluateRequirements`: filter the reviews to valid candidates, keep
those whose author is authorized for the requirement's membership set, and
compare the surviving count with `requirements.count`. -/
def evaluateRequirements (E : Env) (ctx : PolicyContext)
    (requirements : ApprovalRequirement) (methods : Option ApprovalMethods) :
    Except String Bool :=
  let deploymentSha := ctx.deployment.map (fun d => d.commit.sha)
  match filterValidReviews E methods ctx.commits deploymentSha ctx.reviews with
  | .error e => .error e
  | .ok validReviews =>
    let approvedReviews := validReviews.filter (fun r =>
      isUserInAny E r.user.login (requirements.users.getD [])
        (requirements.organizations.getD []) (requirements.teams.getD []))
    .ok (decide (approvedReviews.length ≥ requirements.count))

/-- Model of `evaluateEnvironmentCondition`: fail when no (or an empty) environment
name is present, when an allow list is given that does not contain the
name, or when the deny list contains it. -/
def evaluateEnvironmentCondition (ctx : PolicyContext) (condition : EnvironmentCondition) : Bool :=
  match ctx.environment with
  | none => false
  | some env =>
    if env.name.isEmpty then false
    else if (match condition.matchesList with
      | some ms => !ms.contains env.name
      | none => false) then false
    else if (match condition.not_matches with
      | some ms => ms.contains env.name
      | none => false) then false
    else true

/-- Model of `evaluateHasValidSignaturesCondition`: false on an empty commit list,
otherwise every commit must carry `verification.verified === true`. -/
def evaluateHasValidSignaturesCondition (ctx : PolicyContext) : Bool :=
  if ctx.commits.isEmpty then false
  else ctx.commits.all (fun c =>
    match c.verification with | some v => v.verified | none => false)

/-- Model of `validateCommitSignature`: GitHub must have verified the signature, a
committer must be present, and the committer must be authorized for the
given membership set. -/
def validateCommitSignature (E : Env) (m : MembershipSet) (c : Commit) : Bool :=
  match c.verification with
  | none => false
  | some v =>
    if !v.verified then false
    else
      match c.committer with
      | none => false
      | some committer =>
        isUserInAny E committer.login (m.users.getD [])
          (m.organizations.getD []) (m.teams.getD [])

/-- Model of `evaluateHasValidSignaturesByCondition`. NOTE: the source maps
`validateCommitSignature` over the commits and takes `results.every`,
with no empty-commits guard (unlike its three sibling conditions), so an
empty commit list makes this condition vacuously true. -/
def evaluateHasValidSignaturesByCondition (E : Env) (ctx : PolicyContext) (m : MembershipSet) : Bool :=
  ctx.commits.all (fun c => validateCommitSignature E m c)

/-- Model of `evaluateOnlyHasAuthorsInCondition`: false on an empty commit list,
otherwise every commit's author login (empty string when absent) must be
authorized. -/
def evaluateOnlyHasAuthorsInCondition (E : Env) (ctx : PolicyContext) (m : MembershipSet) : Bool :=
  if ctx.commits.isEmpty then false
  else ctx.commits.all (fun c =>
    isUserInAny E ((c.author.map (fun a => a.login)).getD "") (m.users.getD [])
      (m.organizations.getD []) (m.teams.getD []))

/-- Model of `evaluateOnlyHasContributorsInCondition`: false on an empty commit
list, otherwise every commit's author and committer logins (empty string
when absent) must both be authorized. -/
def evaluateOnlyHasContributorsInCondition (E : Env) (ctx : PolicyContext) (m : MembershipSet) : Bool :=
  if ctx.commits.isEmpty then false
  else ctx.commits.all (fun c =>
    isUserInAny E ((c.author.map (fun a => a.login)).getD "") (m.users.getD [])
      (m.organizations.getD []) (m.teams.getD [])
    && isUserInAny E ((c.committer.map (fun k => k.login)).getD "") (m.users.getD [])
      (m.organizations.getD []) (m.teams.getD []))

/-- Model of `evaluateConditions`: collect one check per condition present in the
`if` object (a `has_valid_signatures: false` entry is falsy and adds no
check), return true when no check was collected, otherwise the
conjunction. NOTE: exactly as in the source, `ref_patterns` is never
consulted — `evaluateConditions` has no branch for it, so a rule guarded
only by `ref_patterns` collects no checks and applies unconditionally. -/
def evaluateConditions (E : Env) (ctx : PolicyContext) (conditions : RuleCondition) : Bool :=
  let checks : List Bool :=
    (match conditions.environment with
      | some c => [evaluateEnvironmentCondition ctx c]
      | none => [])
    ++ (match conditions.has_valid_signatures with
      | some b => if b then [evaluateHasValidSignaturesCondition ctx] else []
      | none => [])
    ++ (match conditions.has_valid_signatures_by with
      | some m => [evaluateHasValidSignaturesByCondition E ctx m]
      | none => [])
    ++ (match conditions.only_has_authors_in with
      | some m => [evaluateOnlyHasAuthorsInCondition E ctx m]
      | none => [])
    ++ (match conditions.only_has_contributors_in with
      | some m => [evaluateOnlyHasContributorsInCondition E ctx m]
      | none => [])
  if checks.isEmpty then true else checks.all id

/-- The tri-state result of rule evaluation: `boolean | 'skipped'`. -/
inductive RuleResult where
  | res (b : Bool)
  | skipped
deriving Repr, DecidableEq

/-- The `r !== 'skipped'` type-narrowing filter used by both combinators. -/
def RuleResult.toBool : RuleResult → Option Bool
  | .res b => some b
  | .skipped => none

/-- OR combination of member outcomes (`evaluateRules` body): discard the
skipped outcomes; skipped when nothing remains, otherwise pass when some
remaining outcome passed. -/
def orCombine (results : List RuleResult) : RuleResult :=
  let nonSkipped := results.filterMap RuleResult.toBool
  if nonSkipped.isEmpty then .skipped else .res (nonSkipped.any id)

/-- AND combination of member outcomes (the `rule.and` branch of
`evaluateRule`): discard the skipped outcomes; skipped when nothing
remains, otherwise pass when every remaining outcome passed. -/
def andCombine (results : List RuleResult) : RuleResult :=
  let nonSkipped := results.filterMap RuleResult.toBool
  if nonSkipped.isEmpty then .skipped else .res (nonSkipped.all id)

/-- Model of `evaluateNamedRule`: skip when an `if` object is present whose
conditions fail; auto-pass when `requires` is absent or `count < 1`;
otherwise the outcome of `evaluateRequirements`, mapped to pass/fail. -/
def evaluateNamedRule (E : Env) (ctx : PolicyContext) (rule : NamedApprovalRule) :
    Except String RuleResult :=
  if (match rule.ifCond with
    | some conds => !evaluateConditions E ctx conds
    | none => false) then .ok .skipped
  else
    match rule.requires with
    | none => .ok (.res true)
    | some req =>
      if req.count < 1 then .ok (.res true)
      else
        match evaluateRequirements E ctx req rule.methods with
        | .error e => .error e
        | .ok met => if !met then .ok (.res false) else .ok (.res true)

/-- Model of `findNamedRule`: first rule with a matching name. -/
def findNamedRule (cfg : PolicyConfig) (name : String) : Option NamedApprovalRule :=
  cfg.approval_rules.find? (fun rule => rule.name == name)

mutual

/-- Model of `evaluateRule`: a string reference is resolved (an unknown name is a
thrown configuration error), `and` combines with `andCombine`, a bare
array and `or` combine with `orCombine` (via `evaluateRules`), and an
unknown shape is `false`. -/
def evaluateRule (E : Env) (cfg : PolicyConfig) (ctx : PolicyContext) :
    ApprovalRule → Except String RuleResult
  | .ref name =>
    match findNamedRule cfg name with
    | none => .error (s!"Rule \"{name}\" not found in configuration")
    | some namedRule => evaluateNamedRule E ctx namedRule
  | .andRule subRules =>
    match evalRuleList E cfg ctx subRules with
    | .error e => .error e
    | .ok results => .ok (andCombine results)
  | .orRule subRules =>
    match evalRuleList E cfg ctx subRules with
    | .error e => .error e
    | .ok results => .ok (orCombine results)
  | .arrRule subRules =>
    match evalRuleList E cfg ctx subRules with
    | .error e => .error e
    | .ok results => .ok (orCombine results)
  | .unknownRule => .ok (.res false)

/-- The member evaluations of one rule collection (the `Promise.all` over
`rules.map(evaluateRule)`), with the first thrown error aborting. -/
def evalRuleList (E : Env) (cfg : PolicyConfig) (ctx : PolicyContext) :
    List ApprovalRule → Except String (List RuleResult)
  | [] => .ok []
  | r :: rs =>
    match evaluateRule E cfg ctx r with
    | .error e => .error e
    | .ok a =>
      match evalRuleList E cfg ctx rs with
      | .error e => .error e
      | .ok as => .ok (a :: as)

end

/-- Model of `evaluateRules`: OR combination over a rule collection. -/
def evaluateRules (E : Env) (cfg : PolicyConfig) (ctx : PolicyContext)
    (rules : List ApprovalRule) : Except String RuleResult :=
  match evalRuleList E cfg ctx rules with
  | .error e => .error e
  | .ok results => .ok (orCombine results)

/-- Model of `PolicyEvaluator.evaluate`: false when `config.policy.approval` is
missing or empty, otherwise the OR over the approval list, counting only
the literal pass outcome as approval (a top-level skip is false). -/
def evaluate (E : Env) (cfg : PolicyConfig) (ctx : PolicyContext) : Except String Bool :=
  match cfg.policy.approval with
  | none => .ok false
  | some rules =>
    if rules.isEmpty then .ok false
    else
      match evaluateRules E cfg ctx rules with
      | .error e => .error e
      | .ok result => .ok (result == .res true)

/-- The fields of a workflow run read by the review-submitted handler.
`created_at` is milliseconds since the Unix epoch. -/
structure WorkflowRunInfo where
  id : Nat
  head_sha : String
  event : String
  created_at : Nat
deriving Repr, DecidableEq

/-- The workflow-run filter of `handlePullRequestReviewSubmitted`: keep a
run when (its head sha is the reviewed commit, or its event is
`pull_request_target`) and `run.created_at + 60s` is before the review's
`submitted_at`; a missing `submitted_at` is replaced by `0` so that no run
can pass the strict comparison. -/
def filterWorkflowRuns (runs : List WorkflowRunInfo) (reviewCommitId : String)
    (submittedAt : Option Nat) : List WorkflowRunInfo :=
  runs.filter (fun run =>
    (run.head_sha == reviewCommitId || run.event == "pull_request_target")
      && decide (run.created_at + 60 * 1000 < submittedAt.getD 0))

/-- The `methods` shapes under which no review can ever qualify: `methods`
absent, or `github_review` unset/false together with
`github_review_comment_patterns` unset. -/
def MethodsDisabled : Option ApprovalMethods → Prop
  | none => True
  | some m => m.github_review ≠ some true ∧ m.github_review_comment_patterns = none

/-- Two capability records that are indistinguishable to the evaluator:
equal membership answers and equal regular-expression behaviour. -/
def SameOutcomes (E1 E2 : Env) : Prop :=
  (∀ u o, isUserInOrganization E1 u o = isUserInOrganization E2 u o)
    ∧ (∀ u t, isUserInTeam E1 u t = isUserInTeam E2 u t)
    ∧ E1.regexCheck = E2.regexCheck
    ∧ E1.regexTest = E2.regexTest

/-- Capabilities whose membership lookups always fail (model of network
errors / 404s / timeouts on every call). -/
def failMembershipEnv (msg : String) (rc : String → String → Option String)
    (rt : String → String → String → Bool) : Env :=
  { orgMembers := fun _ => .error msg, teamMembers := fun _ _ => .error msg,
    regexCheck := rc, regexTest := rt }

/-- Capabilities whose membership lookups always succeed with no members. -/
def emptyMembershipEnv (rc : String → String → Option String)
    (rt : String → String → String → Bool) : Env :=
  { orgMembers := fun _ => .ok [], teamMembers := fun _ _ => .ok [],
    regexCheck := rc, regexTest := rt }

/-! Concrete fixtures used by witnesses and counterexamples. -/

/-- A benign capability record: empty memberships, every regular
expression valid, matching nothing. -/
def env0 : Env :=
  { orgMembers := fun _ => .ok [], teamMembers := fun _ _ => .ok [],
    regexCheck := fun _ _ => none, regexTest := fun _ _ _ => false }

/-- A commit authored by user id 7 and committed by user id 8. -/
def fxCommitA : Commit :=
  { sha := "sha1", author := some { id := 7, login := "alice" },
    committer := some { id := 8, login := "bob" } }

/-- An approved review by the author of `fxCommitA` (a self-approval). -/
def fxSelfReview : Review :=
  { id := 1, user := { id := 7, login := "alice" }, state := "APPROVED",
    commit_id := "sha1" }

/-- A rule guarded only by `ref_patterns`, with an auto-pass requirement
(the `auto-approve-main` shape of the repository README's sample policy). -/
def fxRefRule : NamedApprovalRule :=
  { name := "auto-approve-main",
    ifCond := some { ref_patterns := some ["main"] },
    requires := some { count := 0 } }

/-- Policy whose single rule is `fxRefRule`. -/
def fxRefCfg : PolicyConfig :=
  { policy := { approval := some [.ref "auto-approve-main"] },
    approval_rules := [fxRefRule] }

/-- Context deploying ref `feature/x`, which matches no pattern of
`fxRefRule`. -/
def fxRefCtx : PolicyContext :=
  { deployment := some { ref := some "feature/x", commit := { sha := "d1" } },
    commits := [{ sha := "d1" }], reviews := [] }

/-- A membership set naming one trusted user. -/
def fxMset : MembershipSet := { users := some ["trusted"] }

/-- A context with no commits and no reviews. -/
def fxEmptyCtx : PolicyContext := { commits := [], reviews := [] }

/-- Policy whose single rule auto-passes when all commit signatures are
attributed to `fxMset`. -/
def fxSigCfg : PolicyConfig :=
  { policy := { approval := some [.ref "signed"] },
    approval_rules :=
      [{ name := "signed", ifCond := some { has_valid_signatures_by := some fxMset },
         requires := some { count := 0 } }] }

/-- A commented review by user id 9 whose body contains the characters
`/[`. -/
def fxCommentReview : Review :=
  { id := 1, user := { id := 9, login := "rev" }, state := "commented",
    body := some "see /[ marker", commit_id := "s9" }

/-- Context carrying only `fxCommentReview`. -/
def fxCommentCtx : PolicyContext := { commits := [], reviews := [fxCommentReview] }

/-- Comment-pattern-only approval methods over a given pattern list. -/
def fxPatternMethods (pats : List String) : Option ApprovalMethods :=
  some { github_review_comment_patterns := some pats }

/-- A rule requiring one review from user `rev` matching a given comment
pattern list. -/
def fxPatternRule (pats : List String) : NamedApprovalRule :=
  { name := "r9", requires := some { count := 1, users := some ["rev"] },
    methods := fxPatternMethods pats }

/-- Policy whose single rule is `fxPatternRule pats`. -/
def fxPatternCfg (pats : List String) : PolicyConfig :=
  { policy := { approval := some [.ref "r9"] },
    approval_rules := [fxPatternRule pats] }

/-- A capability record whose regular-expression engine rejects every
body with the message GitHub's engine produces for `[`. -/
def fxBadRegexEnv : Env :=
  { orgMembers := fun _ => .ok [], teamMembers := fun _ _ => .ok [],
    regexCheck := fun _ _ => some "Unterminated character class",
    regexTest := fun _ _ _ => false }

/-- A rule with a positive approval count and no `methods`. -/
def fxNoMethodsRule : NamedApprovalRule :=
  { name := "no-methods", requires := some { count := 1, users := some ["rev"] } }

/-- A workflow run created at a given millisecond timestamp. -/
def fxRun (c : Nat) : WorkflowRunInfo :=
  { id := 1, head_sha := "s", event := "push", created_at := c }

/-- A policy whose only rule is guarded by an environment condition, so it
is skipped in a context without an environment. -/
def fxSkipCfg : PolicyConfig :=
  { policy := { approval := some [.ref "guarded"] },
    approval_rules :=
      [{ name := "guarded",
         ifCond := some { environment := some { matchesList := some ["production"] } },
         requires := some { count := 1 } }] }

/-! Theorems. -/

/-- Membership in the review-submitted workflow-run filter, unfolded. -/
theorem mem_filterWorkflowRuns (runs : List WorkflowRunInfo) (cid : String)
    (s : Option Nat) (run : WorkflowRunInfo) :
    run ∈ filterWorkflowRuns runs cid s
      ↔ run ∈ runs ∧ (run.head_sha = cid ∨ run.event = "pull_request_target")
          ∧ run.created_at + 60 * 1000 < s.getD 0 := by
  simp [filterWorkflowRuns, List.mem_filter, and_assoc]

/-- C2: a workflow run is kept for approval only if (its head sha equals
the reviewed commit id or its event is `pull_request_target`) and
`run.created_at + 60s` is strictly before `review.submitted_at`; a run
created 30 seconds before `submitted_at` is excluded, a run created 61 or
more seconds before it (with matching head sha or pull-request-target
event) is kept, and when `submitted_at` is absent no run passes. -/
theorem c2_toctou_window_thm :
    (∀ (runs : List WorkflowRunInfo) (cid : String) (s : Option Nat) (run : WorkflowRunInfo),
      run ∈ filterWorkflowRuns runs cid s →
        (run.head_sha = cid ∨ run.event = "pull_request_target")
          ∧ run.created_at + 60 * 1000 < s.getD 0)
  ∧ (∀ (runs : List WorkflowRunInfo) (cid : String) (t : Nat) (run : WorkflowRunInfo),
      t = run.created_at + 30 * 1000 → run ∉ filterWorkflowRuns runs cid (some t))
  ∧ (∀ (runs : List WorkflowRunInfo) (cid : String) (t : Nat) (run : WorkflowRunInfo),
      run ∈ runs → run.created_at + 61 * 1000 ≤ t →
      (run.head_sha = cid ∨ run.event = "pull_request_target") →
      run ∈ filterWorkflowRuns runs cid (some t))
  ∧ (∀ (runs : List WorkflowRunInfo) (cid : String),
      filterWorkflowRuns runs cid none = []) := by
  refine ⟨?_, ?_, ?_, ?_⟩
  · intro runs cid s run hmem
    exact ((mem_filterWorkflowRuns runs cid s run).mp hmem).2
  · intro runs cid t run ht hmem
    have h := ((mem_filterWorkflowRuns runs cid (some t) run).mp hmem).2.2
    simp only [Option.getD_some] at h
    omega
  · intro runs cid t run hmem hle hsha
    exact (mem_filterWorkflowRuns runs cid (some t) run).mpr
      ⟨hmem, hsha, by simp only [Option.getD_some]; omega⟩
  · intro runs cid
    simp [filterWorkflowRuns]

/-- Witness for C2 at concrete runs: a run created 30 seconds before the
submission is excluded, one created 61 seconds before is kept. -/
theorem c2_toctou_window_wit :
    (fxRun 100000 ∉ filterWorkflowRuns [fxRun 100000] "s" (some 130000))
  ∧ (fxRun 100000 ∈ filterWorkflowRuns [fxRun 100000] "s" (some 161000)) :=
  ⟨c2_toctou_window_thm.2.1 [fxRun 100000] "s" 130000 (fxRun 100000) (by decide),
   c2_toctou_window_thm.2.2.1 [fxRun 100000] "s" 161000 (fxRun 100000)
     (by simp) (by decide) (by simp [fxRun])⟩

/-- C3: `evaluate` returns false whenever the configuration's approval
list is empty or absent, for every context. -/
theorem c3_empty_policy_thm :
    ∀ (E : Env) (cfg : PolicyConfig) (ctx : PolicyContext),
      cfg.policy.approval = none ∨ cfg.policy.approval = some [] →
      evaluate E cfg ctx = .ok false := by
  intro E cfg ctx h
  rcases h with h | h <;> simp [evaluate, h]

/-- Witness for C3: a concrete empty-approval configuration evaluates to
false. -/
theorem c3_empty_policy_wit :
    evaluate env0 { policy := { approval := some [] }, approval_rules := [] } fxEmptyCtx
      = .ok false :=
  c3_empty_policy_thm env0 { policy := { approval := some [] }, approval_rules := [] }
    fxEmptyCtx (Or.inr rfl)

/-- C5, failing input: contrary to the claim, `has_valid_signatures_by`
evaluates to TRUE on an empty commit list (the source lacks the
empty-commits guard its sibling conditions have), and a policy guarded
only by this condition approves a context without commits. -/
theorem c5_signatures_by_empty_commits_bug :
    evaluateHasValidSignaturesByCondition env0 fxEmptyCtx fxMset = true
      ∧ evaluate env0 fxSigCfg fxEmptyCtx = .ok true :=
  ⟨rfl, rfl⟩

/-- C6, failing input: contrary to the claim, `evaluateConditions` never
consults `ref_patterns`, so a rule guarded only by `ref_patterns` applies
(and here auto-passes) even though `deployment.ref` matches no pattern. -/
theorem c6_ref_patterns_ignored_bug :
    evaluateConditions env0 fxRefCtx { ref_patterns := some ["main"] } = true
      ∧ evaluate env0 fxRefCfg fxRefCtx = .ok true :=
  ⟨rfl, rfl⟩

/-- Counterexample to C8 as stated: the embedded matcher rejects the pair
the claim requires to match — pattern `release/*` does not match
`release/v1.2.3`, because `*` is escaped like every other metacharacter. -/
theorem c8_glob_counterexample :
    testCommentPattern env0 "release/*" "release/v1.2.3" = .ok false := rfl

/-- C8 (amended): a pattern that is not an explicit `/regex/` form is
matched as a case-insensitive unanchored literal substring — all
metacharacters including `*` and `?` are escaped, nothing is anchored —
so `release/*` matches neither `release/v1.2.3` nor `hotfix/v1`, while it
does occur (case-insensitively) inside `please RELEASE/* now`. -/
theorem c8_literal_match_thm :
    (∀ (E : Env) (p b : String), parseReviewPattern p = .literalShape p →
      testCommentPattern E p b = .ok (ciContains b p))
  ∧ parseReviewPattern "release/*" = .literalShape "release/*"
  ∧ ciContains "release/v1.2.3" "release/*" = false
  ∧ ciContains "hotfix/v1" "release/*" = false
  ∧ ciContains "please RELEASE/* now" "release/*" = true := by
  refine ⟨?_, rfl, rfl, rfl, rfl⟩
  intro E p b hp
  unfold testCommentPattern
  rw [hp]

/-- Witness for C8: the literal-substring semantics applied at a concrete
pattern and body. -/
theorem c8_literal_match_wit :
    testCommentPattern env0 "release/*" "please RELEASE/* now" = .ok true :=
  (c8_literal_match_thm.1 env0 "release/*" "please RELEASE/* now" rfl).trans (by rfl)

/-- A self-approval is rejected by the review filter regardless of the
methods, the deployment sha, or anything else about the review. -/
theorem reviewIsValid_of_self (E : Env) (methods : Option ApprovalMethods)
    (commits : List Commit) (dsha : Option String) (r : Review)
    (h : isSelfReview commits r = true) :
    reviewIsValid E methods commits dsha r = .ok false := by
  unfold reviewIsValid
  simp [h]

/-- Removing the self-approvals from the review list does not change the
outcome of the candidate filter, since each of them is rejected anyway. -/
theorem filterValidReviews_filter_self (E : Env) (methods : Option ApprovalMethods)
    (commits : List Commit) (dsha : Option String) (l : List Review) :
    filterValidReviews E methods commits dsha (l.filter (fun r => !isSelfReview commits r))
      = filterValidReviews E methods commits dsha l := by
  induction l with
  | nil => rfl
  | cons r rs ih =>
    by_cases hs : isSelfReview commits r = true
    · rw [List.filter_cons_of_neg (by simp [hs])]
      rw [ih]
      rw [show filterValidReviews E methods commits dsha (r :: rs)
          = (match reviewIsValid E methods commits dsha r with
            | Except.error e => Except.error e
            | Except.ok b =>
              match filterValidReviews E methods commits dsha rs with
              | Except.error e => Except.error e
              | Except.ok rest => Except.ok (if b then r :: rest else rest)) from rfl]
      rw [reviewIsValid_of_self E methods commits dsha r hs]
      cases filterValidReviews E methods commits dsha rs <;> rfl
    · rw [List.filter_cons_of_pos (by simp [hs])]
      show (match reviewIsValid E methods commits dsha r with
        | Except.error e => Except.error e
        | Except.ok b =>
          match filterValidReviews E methods commits dsha
              (rs.filter (fun x => !isSelfReview commits x)) with
          | Except.error e => Except.error e
          | Except.ok rest => Except.ok (if b then r :: rest else rest)) = _
      rw [ih]
      rfl

/-- C1: for every requirement and every context, a review whose `user.id`
equals the `author.id` or the `committer.id` of any commit of the context
is rejected by the candidate filter, and deleting all such reviews from
the context leaves the outcome of `evaluateRequirements` unchanged — a
self-approval never contributes to the approval count. -/
theorem c1_self_approval_rejection_thm :
    (∀ (E : Env) (methods : Option ApprovalMethods) (commits : List Commit)
        (dsha : Option String) (r : Review), isSelfReview commits r = true →
      reviewIsValid E methods commits dsha r = .ok false)
  ∧ (∀ (E : Env) (env : Option EnvironmentInfo) (dep : Option DeploymentInfo)
        (commits : List Commit) (reviews : List Review)
        (req : ApprovalRequirement) (methods : Option ApprovalMethods),
      evaluateRequirements E
          ⟨env, dep, commits, reviews.filter (fun r => !isSelfReview commits r)⟩ req methods
        = evaluateRequirements E ⟨env, dep, commits, reviews⟩ req methods) := by
  refine ⟨reviewIsValid_of_self, ?_⟩
  intro E env dep commits reviews req methods
  show (match filterValidReviews E methods commits (dep.map (fun d => d.commit.sha))
      (reviews.filter (fun r => !isSelfReview commits r)) with
    | Except.error e => Except.error e
    | Except.ok validReviews =>
      Except.ok (decide ((validReviews.filter (fun (r : Review) =>
        isUserInAny E r.user.login (req.users.getD []) (req.organizations.getD [])
          (req.teams.getD []))).length ≥ req.count)))
    = (match filterValidReviews E methods commits (dep.map (fun d => d.commit.sha))
        reviews with
      | Except.error e => Except.error e
      | Except.ok validReviews =>
        Except.ok (decide ((validReviews.filter (fun (r : Review) =>
          isUserInAny E r.user.login (req.users.getD []) (req.organizations.getD [])
            (req.teams.getD []))).length ≥ req.count)))
  rw [filterValidReviews_filter_self]

/-- Witness for C1: the approved review by the author of `fxCommitA` is
rejected. -/
theorem c1_self_approval_rejection_wit :
    reviewIsValid env0 (some { github_review := some true }) [fxCommitA] none fxSelfReview
      = .ok false :=
  c1_self_approval_rejection_thm.1 env0 (some { github_review := some true })
    [fxCommitA] none fxSelfReview rfl

/-- Under disabled methods, the candidate filter rejects every single
review: no clause of the filter can accept. -/
theorem reviewIsValid_methods_disabled (E : Env) (methods : Option ApprovalMethods)
    (commits : List Commit) (dsha : Option String) (r : Review)
    (h : MethodsDisabled methods) :
    reviewIsValid E methods commits dsha r = .ok false := by
  unfold reviewIsValid
  cases methods with
  | none => simp
  | some m =>
    obtain ⟨h1, h2⟩ := h
    have hg : m.github_review.getD false = false := by
      cases hgr : m.github_review with
      | none => rfl
      | some b =>
        cases b with
        | false => rfl
        | true => exact absurd hgr h1
    simp [hg, h2]

/-- Under disabled methods, the candidate filter keeps nothing. -/
theorem filterValidReviews_methods_disabled (E : Env) (methods : Option ApprovalMethods)
    (commits : List Commit) (dsha : Option String) (h : MethodsDisabled methods)
    (l : List Review) :
    filterValidReviews E methods commits dsha l = .ok [] := by
  induction l with
  | nil => rfl
  | cons r rs ih =>
    show (match reviewIsValid E methods commits dsha r with
      | Except.error e => Except.error e
      | Except.ok b =>
        match filterValidReviews E methods commits dsha rs with
        | Except.error e => Except.error e
        | Except.ok rest => Except.ok (if b then r :: rest else rest)) = Except.ok []
    rw [reviewIsValid_methods_disabled E methods commits dsha r h, ih]
    rfl

/-- C10: when a rule's `methods` are absent (or `github_review` is
unset/false and `github_review_comment_patterns` is unset), every review
is rejected by the candidate filter, `evaluateRequirements` fails for
every positive count, and the named rule's outcome is fail (not skip) in
every context where its `if` conditions hold. -/
theorem c10_no_methods_thm :
    (∀ (E : Env) (methods : Option ApprovalMethods) (commits : List Commit)
        (dsha : Option String) (r : Review), MethodsDisabled methods →
      reviewIsValid E methods commits dsha r = .ok false)
  ∧ (∀ (E : Env) (ctx : PolicyContext) (req : ApprovalRequirement)
        (methods : Option ApprovalMethods), MethodsDisabled methods →
      1 ≤ req.count → evaluateRequirements E ctx req methods = .ok false)
  ∧ (∀ (E : Env) (ctx : PolicyContext) (rule : NamedApprovalRule)
        (req : ApprovalRequirement), MethodsDisabled rule.methods →
      rule.requires = some req → 1 ≤ req.count →
      (match rule.ifCond with
        | some conds => evaluateConditions E ctx conds = true
        | none => True) →
      evaluateNamedRule E ctx rule = .ok (.res false)) := by
  have hreq : ∀ (E : Env) (ctx : PolicyContext) (req : ApprovalRequirement)
      (methods : Option ApprovalMethods), MethodsDisabled methods →
      1 ≤ req.count → evaluateRequirements E ctx req methods = .ok false := by
    intro E ctx req methods h hc
    show (match filterValidReviews E methods ctx.commits
        (ctx.deployment.map (fun d => d.commit.sha)) ctx.reviews with
      | Except.error e => Except.error e
      | Except.ok validReviews =>
        Except.ok (decide ((validReviews.filter (fun (r : Review) =>
          isUserInAny E r.user.login (req.users.getD []) (req.organizations.getD [])
            (req.teams.getD []))).length ≥ req.count)))
      = Except.ok false
    rw [filterValidReviews_methods_disabled E methods ctx.commits
      (ctx.deployment.map (fun d => d.commit.sha)) h ctx.reviews]
    simp only [List.filter_nil, List.length_nil, ge_iff_le]
    have hz : ¬ (req.count ≤ 0) := by omega
    simp [hz]
  refine ⟨fun E m c d r h => reviewIsValid_methods_disabled E m c d r h, hreq, ?_⟩
  intro E ctx rule req h hr hc hif
  have hguard : (match rule.ifCond with
      | some conds => !evaluateConditions E ctx conds
      | none => false) = false := by
    cases hic : rule.ifCond with
    | none => rfl
    | some conds =>
      rw [hic] at hif
      simp [hif]
  have hnl : ¬ (req.count < 1) := by omega
  unfold evaluateNamedRule
  simp [hguard, hr, hnl, hreq E ctx req rule.methods h hc]

/-- Witness for C10: a concrete rule with a positive count and no methods
fails. -/
theorem c10_no_methods_wit :
    evaluateNamedRule env0 fxCommentCtx fxNoMethodsRule = .ok (.res false) :=
  c10_no_methods_thm.2.2 env0 fxCommentCtx fxNoMethodsRule
    { count := 1, users := some ["rev"] } trivial rfl (Nat.le_refl 1) trivial

/-- The pattern `/[/` parses as the explicit regular-expression shape with
body `[` and no flags. -/
theorem parseSlashBracketSlash : parseReviewPattern "/[/" = .regexShape "[" "" := rfl

/-- A comment pattern of regular-expression shape whose body the host
engine rejects makes the pattern test throw an error naming the
pattern. -/
theorem testCommentPattern_invalid (E : Env) (p rbody flags b msg : String)
    (hp : parseReviewPattern p = .regexShape rbody flags)
    (hv : E.regexCheck rbody flags = some msg) :
    testCommentPattern E p b = .error (s!"Pattern \"{p}\" is not valid: {msg}") := by
  unfold testCommentPattern
  rw [hp]
  simp only [hv]

/-- Counterexample to C9's example: the pattern `/[` (no closing slash) is
NOT treated as a regular expression — it parses as an escaped literal —
so evaluating a commented review with a body against it raises nothing; it
even matches the body `see /[ marker` and approves. -/
theorem c9_slash_bracket_counterexample :
    parseReviewPattern "/[" = .literalShape "/["
      ∧ evaluate env0 (fxPatternCfg ["/["]) fxCommentCtx = .ok true :=
  ⟨rfl, rfl⟩

/-- C9 (amended): a pattern of explicit `/body/flags` shape whose body is
an invalid regular expression raises an error naming the offending pattern
and aborts the entire evaluation (it is never swallowed into false) — as
the source's own test does with `/[/`; the string `/[`, however, lacks the
closing slash, is matched as a case-insensitive literal, and never
raises. -/
theorem c9_invalid_regex_thm :
    (∀ (E : Env) (p rbody flags b msg : String),
      parseReviewPattern p = .regexShape rbody flags →
      E.regexCheck rbody flags = some msg →
      testCommentPattern E p b = .error (s!"Pattern \"{p}\" is not valid: {msg}"))
  ∧ parseReviewPattern "/[/" = .regexShape "[" ""
  ∧ (∀ (E : Env) (msg : String), E.regexCheck "[" "" = some msg →
      evaluate E (fxPatternCfg ["/[/"]) fxCommentCtx
        = .error (s!"Pattern \"/[/\" is not valid: {msg}"))
  ∧ (∀ (E : Env) (b : String), testCommentPattern E "/[" b = .ok (ciContains b "/[")) := by
  refine ⟨testCommentPattern_invalid, parseSlashBracketSlash, ?_, ?_⟩
  · intro E msg h
    have h1 : testCommentPattern E "/[/" "see /[ marker"
        = .error (s!"Pattern \"/[/\" is not valid: {msg}") :=
      testCommentPattern_invalid E "/[/" "[" "" "see /[ marker" msg parseSlashBracketSlash h
    have h2 : anyPatternMatches E ["/[/"] "see /[ marker"
        = .error (s!"Pattern \"/[/\" is not valid: {msg}") := by
      rw [show anyPatternMatches E ["/[/"] "see /[ marker"
          = (match testCommentPattern E "/[/" "see /[ marker" with
            | Except.error e => Except.error e
            | Except.ok true => Except.ok true
            | Except.ok false => anyPatternMatches E [] "see /[ marker") from rfl]
      rw [h1]
    have h3 : reviewIsValid E (fxPatternMethods ["/[/"]) [] none fxCommentReview
        = .error (s!"Pattern \"/[/\" is not valid: {msg}") := by
      rw [show reviewIsValid E (fxPatternMethods ["/[/"]) [] none fxCommentReview
          = anyPatternMatches E ["/[/"] "see /[ marker" from rfl]
      exact h2
    have h4 : filterValidReviews E (fxPatternMethods ["/[/"]) [] none [fxCommentReview]
        = .error (s!"Pattern \"/[/\" is not valid: {msg}") := by
      rw [show filterValidReviews E (fxPatternMethods ["/[/"]) [] none [fxCommentReview]
          = (match reviewIsValid E (fxPatternMethods ["/[/"]) [] none fxCommentReview with
            | Except.error e => Except.error e
            | Except.ok b =>
              match filterValidReviews E (fxPatternMethods ["/[/"]) [] none [] with
              | Except.error e => Except.error e
              | Except.ok rest => Except.ok (if b then fxCommentReview :: rest else rest))
          from rfl]
      rw [h3]
    have h5 : evaluateRequirements E fxCommentCtx
        { count := 1, users := some ["rev"] } (fxPatternMethods ["/[/"])
        = .error (s!"Pattern \"/[/\" is not valid: {msg}") := by
      rw [show evaluateRequirements E fxCommentCtx
            { count := 1, users := some ["rev"] } (fxPatternMethods ["/[/"])
          = (match filterValidReviews E (fxPatternMethods ["/[/"]) [] none [fxCommentReview] with
            | Except.error e => Except.error e
            | Except.ok validReviews =>
              Except.ok (decide ((validReviews.filter (fun (r : Review) =>
                isUserInAny E r.user.login ["rev"] [] [])).length ≥ 1)))
          from rfl]
      rw [h4]
    have h6 : evaluateNamedRule E fxCommentCtx (fxPatternRule ["/[/"])
        = .error (s!"Pattern \"/[/\" is not valid: {msg}") := by
      rw [show evaluateNamedRule E fxCommentCtx (fxPatternRule ["/[/"])
          = (match evaluateRequirements E fxCommentCtx
              { count := 1, users := some ["rev"] } (fxPatternMethods ["/[/"]) with
            | Except.error e => Except.error e
            | Except.ok met =>
              if !met then Except.ok (RuleResult.res false)
              else Except.ok (RuleResult.res true))
          from rfl]
      rw [h5]
    have h7 : evalRuleList E (fxPatternCfg ["/[/"]) fxCommentCtx [.ref "r9"]
        = .error (s!"Pattern \"/[/\" is not valid: {msg}") := by
      rw [show evalRuleList E (fxPatternCfg ["/[/"]) fxCommentCtx [.ref "r9"]
          = (match evaluateNamedRule E fxCommentCtx (fxPatternRule ["/[/"]) with
            | Except.error e => Except.error e
            | Except.ok a =>
              match evalRuleList E (fxPatternCfg ["/[/"]) fxCommentCtx [] with
              | Except.error e => Except.error e
              | Except.ok as => Except.ok (a :: as))
          from rfl]
      rw [h6]
    have h8 : evaluateRules E (fxPatternCfg ["/[/"]) fxCommentCtx [.ref "r9"]
        = .error (s!"Pattern \"/[/\" is not valid: {msg}") := by
      rw [show evaluateRules E (fxPatternCfg ["/[/"]) fxCommentCtx [.ref "r9"]
          = (match evalRuleList E (fxPatternCfg ["/[/"]) fxCommentCtx [.ref "r9"] with
            | Except.error e => Except.error e
            | Except.ok results => Except.ok (orCombine results))
          from rfl]
      rw [h7]
    rw [show evaluate E (fxPatternCfg ["/[/"]) fxCommentCtx
        = (match evaluateRules E (fxPatternCfg ["/[/"]) fxCommentCtx [.ref "r9"] with
          | Except.error e => Except.error e
          | Except.ok result => Except.ok (result == RuleResult.res true))
        from rfl]
    rw [h8]
  · intro E b
    unfold testCommentPattern
    rw [show parseReviewPattern "/[" = .literalShape "/[" from rfl]

/-- Witness for C9 at a concrete engine: evaluation aborts with the error
naming the offending pattern `/[/`. -/
theorem c9_invalid_regex_wit :
    evaluate fxBadRegexEnv (fxPatternCfg ["/[/"]) fxCommentCtx
      = .error "Pattern \"/[/\" is not valid: Unterminated character class" :=
  (c9_invalid_regex_thm.2.2.1 fxBadRegexEnv "Unterminated character class" rfl).trans
    (by rfl)

/-- The skip filter keeps exactly the boolean outcomes. -/
theorem toBool_eq_none_iff (r : RuleResult) : r.toBool = none ↔ r = .skipped := by
  cases r <;> simp [RuleResult.toBool]

/-- The skip filter is transparent on boolean outcomes. -/
theorem toBool_eq_some_iff (r : RuleResult) (b : Bool) : r.toBool = some b ↔ r = .res b := by
  cases r <;> simp [RuleResult.toBool]

/-- The OR combinator is skipped exactly when every member was skipped. -/
theorem orCombine_skipped_iff (rs : List RuleResult) :
    orCombine rs = .skipped ↔ ∀ r ∈ rs, r = .skipped := by
  unfold orCombine
  constructor
  · intro h r hr
    by_cases hh : (rs.filterMap RuleResult.toBool).isEmpty
    · have hnil := List.isEmpty_iff.mp hh
      exact (toBool_eq_none_iff r).mp (List.filterMap_eq_nil_iff.mp hnil r hr)
    · rw [if_neg hh] at h
      exact absurd h (by simp)
  · intro hall
    have hnil : rs.filterMap RuleResult.toBool = [] := by
      apply List.filterMap_eq_nil_iff.mpr
      intro r hr
      rw [hall r hr]
      rfl
    rw [if_pos (by rw [hnil]; rfl)]

/-- The AND combinator is skipped exactly when every member was skipped. -/
theorem andCombine_skipped_iff (rs : List RuleResult) :
    andCombine rs = .skipped ↔ ∀ r ∈ rs, r = .skipped := by
  unfold andCombine
  constructor
  · intro h r hr
    by_cases hh : (rs.filterMap RuleResult.toBool).isEmpty
    · have hnil := List.isEmpty_iff.mp hh
      exact (toBool_eq_none_iff r).mp (List.filterMap_eq_nil_iff.mp hnil r hr)
    · rw [if_neg hh] at h
      exact absurd h (by simp)
  · intro hall
    have hnil : rs.filterMap RuleResult.toBool = [] := by
      apply List.filterMap_eq_nil_iff.mpr
      intro r hr
      rw [hall r hr]
      rfl
    rw [if_pos (by rw [hnil]; rfl)]

/-- Some member is not skipped, so neither combinator's filter is empty. -/
theorem filterMap_toBool_not_empty (rs : List RuleResult) (h : ∃ r ∈ rs, r ≠ .skipped) :
    ¬ ((rs.filterMap RuleResult.toBool).isEmpty = true) := by
  obtain ⟨r, hr, hrs⟩ := h
  intro hh
  exact hrs ((toBool_eq_none_iff r).mp
    (List.filterMap_eq_nil_iff.mp (List.isEmpty_iff.mp hh) r hr))

/-- With at least one non-skipped member, OR passes exactly when some
member passed. -/
theorem orCombine_pass_iff (rs : List RuleResult) (h : ∃ r ∈ rs, r ≠ .skipped) :
    orCombine rs = .res true ↔ .res true ∈ rs := by
  unfold orCombine
  rw [if_neg (filterMap_toBool_not_empty rs h)]
  constructor
  · intro he
    injection he with h1
    obtain ⟨b, hb, hbid⟩ := List.any_eq_true.mp h1
    obtain ⟨r, hr, hrb⟩ := List.mem_filterMap.mp hb
    have hrr : r = .res b := (toBool_eq_some_iff r b).mp hrb
    have hb' : b = true := hbid
    rw [hb'] at hrr
    rw [← hrr]
    exact hr
  · intro hm
    have hmem : true ∈ rs.filterMap RuleResult.toBool :=
      List.mem_filterMap.mpr ⟨.res true, hm, rfl⟩
    have hany : (rs.filterMap RuleResult.toBool).any id = true :=
      List.any_eq_true.mpr ⟨true, hmem, rfl⟩
    rw [hany]

/-- With at least one non-skipped member, AND passes exactly when every
member was skipped or passed. -/
theorem andCombine_pass_iff (rs : List RuleResult) (h : ∃ r ∈ rs, r ≠ .skipped) :
    andCombine rs = .res true ↔ ∀ r ∈ rs, r = .skipped ∨ r = .res true := by
  unfold andCombine
  rw [if_neg (filterMap_toBool_not_empty rs h)]
  constructor
  · intro he r hr
    injection he with h1
    cases r with
    | skipped => exact Or.inl rfl
    | res b =>
      have hmem : b ∈ rs.filterMap RuleResult.toBool :=
        List.mem_filterMap.mpr ⟨.res b, hr, rfl⟩
      have hb : id b = true := List.all_eq_true.mp h1 b hmem
      right
      rw [show b = true from hb]
  · intro hall
    have h1 : (rs.filterMap RuleResult.toBool).all id = true := by
      apply List.all_eq_true.mpr
      intro b hb
      obtain ⟨r, hr, hrb⟩ := List.mem_filterMap.mp hb
      rcases hall r hr with h2 | h2 <;> rw [h2] at hrb
      · exact absurd hrb (by simp [RuleResult.toBool])
      · have : some true = some b := hrb
        injection this with h3
        rw [← h3]
        rfl
    rw [h1]

/-- C4: the rule combinators treat skip as exclusion, not failure: member
outcomes are combined by `orCombine` (for OR and bare lists) and
`andCombine` (for AND); both are skip exactly when every member is
skipped; otherwise OR passes exactly when some member passed, and AND
exactly when every non-skipped member passed; a skip outcome at the top
level makes `evaluate` return false; and a nested AND group whose members
are all skipped is skip, not fail. -/
theorem c4_skip_semantics_thm :
    (∀ (E : Env) (cfg : PolicyConfig) (ctx : PolicyContext) (rules : List ApprovalRule)
        (rss : List RuleResult), evalRuleList E cfg ctx rules = .ok rss →
      evaluateRules E cfg ctx rules = .ok (orCombine rss)
        ∧ evaluateRule E cfg ctx (.orRule rules) = .ok (orCombine rss)
        ∧ evaluateRule E cfg ctx (.arrRule rules) = .ok (orCombine rss)
        ∧ evaluateRule E cfg ctx (.andRule rules) = .ok (andCombine rss))
  ∧ (∀ rss : List RuleResult,
      (orCombine rss = .skipped ↔ ∀ r ∈ rss, r = .skipped)
        ∧ (andCombine rss = .skipped ↔ ∀ r ∈ rss, r = .skipped))
  ∧ (∀ rss : List RuleResult, (∃ r ∈ rss, r ≠ .skipped) →
      ((orCombine rss = .res true ↔ .res true ∈ rss)
        ∧ (andCombine rss = .res true ↔ ∀ r ∈ rss, r = .skipped ∨ r = .res true)))
  ∧ (∀ (E : Env) (cfg : PolicyConfig) (ctx : PolicyContext) (rules : List ApprovalRule),
      cfg.policy.approval = some rules →
      evaluateRules E cfg ctx rules = .ok .skipped →
      evaluate E cfg ctx = .ok false)
  ∧ (∀ (E : Env) (cfg : PolicyConfig) (ctx : PolicyContext) (subs : List ApprovalRule)
        (rss : List RuleResult), evalRuleList E cfg ctx subs = .ok rss →
      (∀ r ∈ rss, r = .skipped) →
      evaluateRule E cfg ctx (.andRule subs) = .ok .skipped) := by
  have hco : ∀ (E : Env) (cfg : PolicyConfig) (ctx : PolicyContext)
      (rules : List ApprovalRule) (rss : List RuleResult),
      evalRuleList E cfg ctx rules = .ok rss →
      evaluateRules E cfg ctx rules = .ok (orCombine rss)
        ∧ evaluateRule E cfg ctx (.orRule rules) = .ok (orCombine rss)
        ∧ evaluateRule E cfg ctx (.arrRule rules) = .ok (orCombine rss)
        ∧ evaluateRule E cfg ctx (.andRule rules) = .ok (andCombine rss) := by
    intro E cfg ctx rules rss h
    refine ⟨?_, ?_, ?_, ?_⟩
    · unfold evaluateRules
      rw [h]
    · rw [show evaluateRule E cfg ctx (.orRule rules)
          = (match evalRuleList E cfg ctx rules with
            | Except.error e => Except.error e
            | Except.ok results => Except.ok (orCombine results)) from rfl]
      rw [h]
    · rw [show evaluateRule E cfg ctx (.arrRule rules)
          = (match evalRuleList E cfg ctx rules with
            | Except.error e => Except.error e
            | Except.ok results => Except.ok (orCombine results)) from rfl]
      rw [h]
    · rw [show evaluateRule E cfg ctx (.andRule rules)
          = (match evalRuleList E cfg ctx rules with
            | Except.error e => Except.error e
            | Except.ok results => Except.ok (andCombine results)) from rfl]
      rw [h]
  refine ⟨hco, ?_, ?_, ?_, ?_⟩
  · intro rss
    exact ⟨orCombine_skipped_iff rss, andCombine_skipped_iff rss⟩
  · intro rss h
    exact ⟨orCombine_pass_iff rss h, andCombine_pass_iff rss h⟩
  · intro E cfg ctx rules hap h
    unfold evaluate
    rw [hap]
    show (if rules.isEmpty then Except.ok false
      else match evaluateRules E cfg ctx rules with
        | Except.error e => Except.error e
        | Except.ok result => Except.ok (result == RuleResult.res true)) = Except.ok false
    by_cases he : rules.isEmpty
    · rw [if_pos he]
    · rw [if_neg he, h]
      rfl
  · intro E cfg ctx subs rss hl hall
    rw [(hco E cfg ctx subs rss hl).2.2.2,
      (andCombine_skipped_iff rss).mpr hall]

/-- Witness for C4: an OR whose single member rule is skipped (its
environment condition fails in a context without an environment) is a
top-level skip, and `evaluate` maps it to false. -/
theorem c4_skip_semantics_wit : evaluate env0 fxSkipCfg fxEmptyCtx = .ok false :=
  c4_skip_semantics_thm.2.2.2.1 env0 fxSkipCfg fxEmptyCtx [.ref "guarded"] rfl rfl

/-- Capabilities with the same observable outcomes authorize the same
users. -/
theorem isUserInAny_congr (E1 E2 : Env) (h : SameOutcomes E1 E2) (u : String)
    (us os ts : List String) : isUserInAny E1 u us os ts = isUserInAny E2 u us os ts := by
  unfold isUserInAny
  rw [show (fun o => isUserInOrganization E1 u o) = (fun o => isUserInOrganization E2 u o)
    from funext (h.1 u)]
  rw [show (fun t => isUserInTeam E1 u t) = (fun t => isUserInTeam E2 u t)
    from funext (h.2.1 u)]

/-- Capabilities with the same observable outcomes test a pattern
identically. -/
theorem testCommentPattern_congr (E1 E2 : Env) (h : SameOutcomes E1 E2)
    (p b : String) : testCommentPattern E1 p b = testCommentPattern E2 p b := by
  unfold testCommentPattern
  rw [h.2.2.1, h.2.2.2]

/-- Capabilities with the same observable outcomes match a pattern list
identically. -/
theorem anyPatternMatches_congr (E1 E2 : Env) (h : SameOutcomes E1 E2)
    (ps : List String) (b : String) :
    anyPatternMatches E1 ps b = anyPatternMatches E2 ps b := by
  induction ps with
  | nil => rfl
  | cons p ps ih =>
    show (match testCommentPattern E1 p b with
      | Except.error e => Except.error e
      | Except.ok true => Except.ok true
      | Except.ok false => anyPatternMatches E1 ps b)
      = anyPatternMatches E2 (p :: ps) b
    rw [testCommentPattern_congr E1 E2 h p b, ih]
    rfl

/-- Capabilities with the same observable outcomes accept the same
reviews. -/
theorem reviewIsValid_congr (E1 E2 : Env) (h : SameOutcomes E1 E2)
    (methods : Option ApprovalMethods) (commits : List Commit)
    (dsha : Option String) (r : Review) :
    reviewIsValid E1 methods commits dsha r = reviewIsValid E2 methods commits dsha r := by
  unfold reviewIsValid
  simp only [anyPatternMatches_congr E1 E2 h]

/-- Capabilities with the same observable outcomes filter the reviews
identically. -/
theorem filterValidReviews_congr (E1 E2 : Env) (h : SameOutcomes E1 E2)
    (methods : Option ApprovalMethods) (commits : List Commit)
    (dsha : Option String) (l : List Review) :
    filterValidReviews E1 methods commits dsha l
      = filterValidReviews E2 methods commits dsha l := by
  induction l with
  | nil => rfl
  | cons r rs ih =>
    show (match reviewIsValid E1 methods commits dsha r with
      | Except.error e => Except.error e
      | Except.ok b =>
        match filterValidReviews E1 methods commits dsha rs with
        | Except.error e => Except.error e
        | Except.ok rest => Except.ok (if b then r :: rest else rest))
      = filterValidReviews E2 methods commits dsha (r :: rs)
    rw [reviewIsValid_congr E1 E2 h methods commits dsha r, ih]
    rfl

/-- Capabilities with the same observable outcomes decide requirements
identically. -/
theorem evaluateRequirements_congr (E1 E2 : Env) (h : SameOutcomes E1 E2)
    (ctx : PolicyContext) (req : ApprovalRequirement)
    (methods : Option ApprovalMethods) :
    evaluateRequirements E1 ctx req methods = evaluateRequirements E2 ctx req methods := by
  unfold evaluateRequirements
  simp only [filterValidReviews_congr E1 E2 h, isUserInAny_congr E1 E2 h]

/-- Capabilities with the same observable outcomes validate signatures
identically. -/
theorem validateCommitSignature_congr (E1 E2 : Env) (h : SameOutcomes E1 E2)
    (m : MembershipSet) (c : Commit) :
    validateCommitSignature E1 m c = validateCommitSignature E2 m c := by
  unfold validateCommitSignature
  simp only [isUserInAny_congr E1 E2 h]

/-- Capabilities with the same observable outcomes decide conditions
identically. -/
theorem evaluateConditions_congr (E1 E2 : Env) (h : SameOutcomes E1 E2)
    (ctx : PolicyContext) (conds : RuleCondition) :
    evaluateConditions E1 ctx conds = evaluateConditions E2 ctx conds := by
  unfold evaluateConditions evaluateHasValidSignaturesByCondition
    evaluateOnlyHasAuthorsInCondition evaluateOnlyHasContributorsInCondition
  simp only [validateCommitSignature_congr E1 E2 h, isUserInAny_congr E1 E2 h]

/-- Capabilities with the same observable outcomes evaluate a named rule
identically. -/
theorem evaluateNamedRule_congr (E1 E2 : Env) (h : SameOutcomes E1 E2)
    (ctx : PolicyContext) (rule : NamedApprovalRule) :
    evaluateNamedRule E1 ctx rule = evaluateNamedRule E2 ctx rule := by
  unfold evaluateNamedRule
  simp only [evaluateConditions_congr E1 E2 h, evaluateRequirements_congr E1 E2 h]

mutual

/-- Capabilities with the same observable outcomes evaluate every rule
tree identically. -/
theorem evaluateRule_congr (E1 E2 : Env) (h : SameOutcomes E1 E2)
    (cfg : PolicyConfig) (ctx : PolicyContext) :
    (r : ApprovalRule) → evaluateRule E1 cfg ctx r = evaluateRule E2 cfg ctx r
  | .ref name => by
    show (match findNamedRule cfg name with
      | none => Except.error (s!"Rule \"{name}\" not found in configuration")
      | some namedRule => evaluateNamedRule E1 ctx namedRule)
      = (match findNamedRule cfg name with
      | none => Except.error (s!"Rule \"{name}\" not found in configuration")
      | some namedRule => evaluateNamedRule E2 ctx namedRule)
    cases findNamedRule cfg name with
    | none => rfl
    | some nr => exact evaluateNamedRule_congr E1 E2 h ctx nr
  | .andRule subs => by
    show (match evalRuleList E1 cfg ctx subs with
      | Except.error e => Except.error e
      | Except.ok results => Except.ok (andCombine results))
      = (match evalRuleList E2 cfg ctx subs with
      | Except.error e => Except.error e
      | Except.ok results => Except.ok (andCombine results))
    rw [evalRuleList_congr E1 E2 h cfg ctx subs]
  | .orRule subs => by
    show (match evalRuleList E1 cfg ctx subs with
      | Except.error e => Except.error e
      | Except.ok results => Except.ok (orCombine results))
      = (match evalRuleList E2 cfg ctx subs with
      | Except.error e => Except.error e
      | Except.ok results => Except.ok (orCombine results))
    rw [evalRuleList_congr E1 E2 h cfg ctx subs]
  | .arrRule subs => by
    show (match evalRuleList E1 cfg ctx subs with
      | Except.error e => Except.error e
      | Except.ok results => Except.ok (orCombine results))
      = (match evalRuleList E2 cfg ctx subs with
      | Except.error e => Except.error e
      | Except.ok results => Except.ok (orCombine results))
    rw [evalRuleList_congr E1 E2 h cfg ctx subs]
  | .unknownRule => rfl

/-- Capabilities with the same observable outcomes evaluate every rule
collection identically. -/
theorem evalRuleList_congr (E1 E2 : Env) (h : SameOutcomes E1 E2)
    (cfg : PolicyConfig) (ctx : PolicyContext) :
    (l : List ApprovalRule) → evalRuleList E1 cfg ctx l = evalRuleList E2 cfg ctx l
  | [] => rfl
  | r :: rs => by
    show (match evaluateRule E1 cfg ctx r with
      | Except.error e => Except.error e
      | Except.ok a =>
        match evalRuleList E1 cfg ctx rs with
        | Except.error e => Except.error e
        | Except.ok as => Except.ok (a :: as))
      = evalRuleList E2 cfg ctx (r :: rs)
    rw [evaluateRule_congr E1 E2 h cfg ctx r, evalRuleList_congr E1 E2 h cfg ctx rs]
    rfl

end

/-- Capabilities with the same observable outcomes give the same
evaluation verdict for every policy and context. -/
theorem evaluate_congr (E1 E2 : Env) (h : SameOutcomes E1 E2)
    (cfg : PolicyConfig) (ctx : PolicyContext) :
    evaluate E1 cfg ctx = evaluate E2 cfg ctx := by
  unfold evaluate evaluateRules
  cases cfg.policy.approval with
  | none => rfl
  | some rules => simp only [evalRuleList_congr E1 E2 h cfg ctx]

/-- C7: a failing membership lookup is caught and treated as "not a
member" — `isUserInOrganization` / `isUserInTeam` return false instead of
propagating the error — and a policy evaluation whose every lookup fails
behaves exactly like one whose every lookup succeeds with an empty member
list: the rest of the evaluation completes normally. -/
theorem c7_membership_fail_closed_thm :
    (∀ (E : Env) (user org msg : String), E.orgMembers org = .error msg →
      isUserInOrganization E user org = false)
  ∧ (∀ (E : Env) (user team msg : String),
      E.teamMembers ((team.splitOn "/").getD 0 "") ((team.splitOn "/").getD 1 "")
        = .error msg →
      isUserInTeam E user team = false)
  ∧ (∀ (msg : String) (rc : String → String → Option String)
        (rt : String → String → String → Bool) (cfg : PolicyConfig) (ctx : PolicyContext),
      evaluate (failMembershipEnv msg rc rt) cfg ctx
        = evaluate (emptyMembershipEnv rc rt) cfg ctx) := by
  refine ⟨?_, ?_, ?_⟩
  · intro E user org msg h
    unfold isUserInOrganization
    rw [h]
  · intro E user team msg h
    show (match E.teamMembers ((team.splitOn "/").getD 0 "") ((team.splitOn "/").getD 1 "") with
      | Except.ok members => members.any fun m => m == user
      | Except.error _ => false) = false
    rw [h]
  · intro msg rc rt cfg ctx
    have hso : SameOutcomes (failMembershipEnv msg rc rt) (emptyMembershipEnv rc rt) := by
      refine ⟨?_, ?_, rfl, rfl⟩
      · intro u o
        rfl
      · intro u t
        rfl
    exact evaluate_congr (failMembershipEnv msg rc rt) (emptyMembershipEnv rc rt) hso cfg ctx

/-- Witness for C7 at a concrete failing capability record. -/
theorem c7_membership_fail_closed_wit :
    isUserInOrganization (failMembershipEnv "boom" (fun _ _ => none) (fun _ _ _ => false))
        "alice" "org1" = false
  ∧ isUserInTeam (failMembershipEnv "boom" (fun _ _ => none) (fun _ _ _ => false))
        "alice" "org1/team1" = false
  ∧ evaluate (failMembershipEnv "boom" (fun _ _ => none) (fun _ _ _ => false))
        fxSigCfg fxEmptyCtx
      = evaluate (emptyMembershipEnv (fun _ _ => none) (fun _ _ _ => false))
        fxSigCfg fxEmptyCtx :=
  ⟨c7_membership_fail_closed_thm.1 _ "alice" "org1" "boom" rfl,
   c7_membership_fail_closed_thm.2.1 _ "alice" "org1/team1" "boom" rfl,
   c7_membership_fail_closed_thm.2.2 "boom" (fun _ _ => none) (fun _ _ _ => false)
     fxSigCfg fxEmptyCtx⟩

end Deploynaut
